import Mathlib

/-!
# Verification of the timeline animation module

Shallow embedding of `src/agent/animation.py` (keyframes, tracks, timeline,
player, recorder, interpolation) over exact rationals, together with proofs of
the specified properties.

Modelling conventions:
* Python `float` values are modelled as `ℚ` (the algorithms are pure
  arithmetic; no claim depends on rounding).
* Python `float | Sequence[float]` values are the tagged union `Value`.
* Python exceptions are modelled by an explicit error component:
  `ValueError("Track is locked; ...")` is `Err.lockedError`,
  `RuntimeError("Recording is disabled; ...")` is `Err.recordingDisabledError`.
  Mutating operations return the resulting state together with
  `Option Err`, so "no mutation on failure" is a provable statement.
* Python's `list.sort(key=lambda k: k.time)` is a stable sort by `time`;
  a stable sort's output is uniquely determined by its input, so it is
  modelled by Mathlib's stable `List.insertionSort` on the time order.
* Python dicts keyed by strings are modelled as functions `String → Option _`
  (for sampled snapshots) or association lists (for the track table).
-/

namespace Anim

/-- `value: float | Sequence[float]` from `animation.py`. -/
inductive Value where
  | scalar (x : ℚ)
  | vector (xs : List ℚ)
deriving DecidableEq

/-- Error kinds raised by the module (see module docstring above for the
mapping from the Python exception objects). -/
inductive Err where
  | lockedError
  | recordingDisabledError
deriving DecidableEq

/-- `Keyframe` dataclass: `time`, `property_path`, `value`, `interpolation`. -/
structure Keyframe where
  time : ℚ
  property_path : String
  value : Value
  interpolation : String
deriving DecidableEq

/-- The sort key order used by every `keyframes.sort(key=lambda k: k.time)`. -/
def timeLE (a b : Keyframe) : Prop := a.time ≤ b.time

instance : DecidableRel timeLE := fun a b => inferInstanceAs (Decidable (a.time ≤ b.time))

instance : IsTotal Keyframe timeLE := ⟨fun a b => le_total a.time b.time⟩

instance : IsTrans Keyframe timeLE := ⟨fun _ _ _ h1 h2 => le_trans h1 h2⟩

/-- Python's `list.sort(key=lambda k: k.time)` (Timsort) is a stable sort by
`time`; stable sorting is extensionally unique, so `List.insertionSort`
(stable) by `timeLE` computes the same list. -/
def sortByTime (l : List Keyframe) : List Keyframe := List.insertionSort timeLE l

/-- Non-decreasing by `time` (the documented track invariant). -/
def SortedByTime (l : List Keyframe) : Prop := List.Sorted timeLE l

/-- `t_clamped` after the easing if/elif chain of `_lerp`: first clamp `t` to
`[0, 1]`, then apply the curve transformation selected by `mode` (unknown
modes, including `"linear"`, fall through unchanged). -/
def easedT (t : ℚ) (mode : String) : ℚ :=
  let tc := max 0 (min t 1)
  if mode = "ease-in" then tc * tc
  else if mode = "ease-out" then 1 - (1 - tc) * (1 - tc)
  else if mode = "bezier" then 3 * tc * tc - 2 * tc * tc * tc
  else tc

/-- `_lerp(start, end, t, mode)`.  The vector branch is Python's
`[_lerp(float(s), float(e), t_clamped, "linear") for s, e in zip(start, end)]`
with the depth-one recursive call inlined (its argument elements are scalars):
each element is `s + (e - s) * easedT t_clamped "linear"`.  Note `zip`
truncates to the shorter list, exactly as `List.zipWith` does.  Python raises
`TypeError` when the two tags differ (`zip` over a float, or `float()` of a
list); that case is modelled as `none`. -/
def lerp (start finish : Value) (t : ℚ) (mode : String) : Option Value :=
  let tc := easedT t mode
  match start, finish with
  | Value.vector xs, Value.vector ys =>
      some (Value.vector (List.zipWith (fun s e => s + (e - s) * easedT tc "linear") xs ys))
  | Value.scalar s, Value.scalar e => some (Value.scalar (s + (e - s) * tc))
  | _, _ => none

/-- `TimelineTrack` dataclass. -/
structure TimelineTrack where
  object_id : String
  keyframes : List Keyframe
  muted : Bool
  locked : Bool
deriving DecidableEq

namespace TimelineTrack

/-- `add_keyframe`: locked check, then append and re-sort by time. -/
def add_keyframe (tr : TimelineTrack) (kf : Keyframe) : TimelineTrack × Option Err :=
  if tr.locked then (tr, some Err.lockedError)
  else ({ tr with keyframes := sortByTime (tr.keyframes ++ [kf]) }, none)

/-- `delete_keyframe`: locked check, then filter out all exact
`(property_path, time)` matches. -/
def delete_keyframe (tr : TimelineTrack) (pp : String) (time : ℚ) :
    TimelineTrack × Option Err :=
  if tr.locked then (tr, some Err.lockedError)
  else
    let kept := tr.keyframes.filter
      (fun kf => decide (¬ (kf.property_path = pp ∧ kf.time = time)))
    ({ tr with keyframes := kept }, none)

/-- `move_keyframe`: locked check, retime all matches in place, re-sort. -/
def move_keyframe (tr : TimelineTrack) (pp : String) (oldT newT : ℚ) :
    TimelineTrack × Option Err :=
  if tr.locked then (tr, some Err.lockedError)
  else
    let retimed := tr.keyframes.map
      (fun kf => if kf.property_path = pp ∧ kf.time = oldT
                 then { kf with time := newT } else kf)
    ({ tr with keyframes := sortByTime retimed }, none)

/-- `copy_keyframes`: window filter plus rebase, no lock check, no mutation. -/
def copy_keyframes (tr : TimelineTrack) (start stop : ℚ) : List Keyframe :=
  (tr.keyframes.filter fun kf => decide (start ≤ kf.time ∧ kf.time ≤ stop)).map
    fun kf => Keyframe.mk (kf.time - start) kf.property_path kf.value kf.interpolation

/-- The `for kf in keyframes: self.add_keyframe(Keyframe(kf.time + offset, ...))`
loop of `paste_keyframes`; a raised error aborts the loop, keeping the state
mutated so far. -/
def pasteLoop (offset : ℚ) : TimelineTrack → List Keyframe → TimelineTrack × Option Err
  | tr, [] => (tr, none)
  | tr, kf :: rest =>
    match add_keyframe tr
        (Keyframe.mk (kf.time + offset) kf.property_path kf.value kf.interpolation) with
    | (t2, none) => pasteLoop offset t2 rest
    | (t2, some e) => (t2, some e)

/-- `paste_keyframes`: locked check, then re-add each keyframe shifted by
`offset`. -/
def paste_keyframes (tr : TimelineTrack) (offset : ℚ) (kfs : List Keyframe) :
    TimelineTrack × Option Err :=
  if tr.locked then (tr, some Err.lockedError)
  else pasteLoop offset tr kfs

/-- The loop body of `_find_adjacent_keyframes` over the (already sorted)
list: `before` is overwritten by every keyframe with `time ≤ query`, `after`
is set once to the first keyframe with `time > query`. -/
def findLoop (time : ℚ) :
    List Keyframe → Option Keyframe → Option Keyframe → Option Keyframe × Option Keyframe
  | [], before, after => (before, after)
  | kf :: rest, before, after =>
    if kf.time ≤ time then findLoop time rest (some kf) after
    else if time < kf.time ∧ after = none then findLoop time rest before (some kf)
    else findLoop time rest before after

/-- `_find_adjacent_keyframes(keyframes, time)`: iterates over
`sorted(keyframes, key=lambda k: k.time)`. -/
def find_adjacent_keyframes (kfs : List Keyframe) (time : ℚ) :
    Option Keyframe × Option Keyframe :=
  findLoop time (sortByTime kfs) none none

/-- `[kf for kf in self.keyframes if kf.property_path == path]`. -/
def siblingsOf (tr : TimelineTrack) (path : String) : List Keyframe :=
  tr.keyframes.filter fun kf => decide (kf.property_path = path)

/-- `_interpolate_values`, viewed as the mapping it builds: a path that gets
no dict entry (no keyframes, or the unreachable neither-adjacent case) maps to
`none`.  The `t_norm` guard and the `before and after` / `elif` chain are
verbatim. -/
def interpolate_values (tr : TimelineTrack) (time : ℚ) : String → Option Value :=
  fun path =>
    match find_adjacent_keyframes (tr.siblingsOf path) time with
    | (some b, some a) =>
        lerp b.value a.value
          (if a.time ≠ b.time then (time - b.time) / (a.time - b.time) else 0)
          a.interpolation
    | (some b, none) => some b.value
    | (none, some a) => some a.value
    | (none, none) => none

/-- `sample(time)`: empty mapping when muted, else `_interpolate_values`. -/
def sample (tr : TimelineTrack) (time : ℚ) : String → Option Value :=
  if tr.muted then fun _ => none else interpolate_values tr time

end TimelineTrack

/-- Python `%` on rationals: for a positive modulus, `x % d = x - d * ⌊x / d⌋`,
which Python normalizes into `[0, d)`. -/
def pymod (x d : ℚ) : ℚ := x - d * ⌊x / d⌋

/-- `AnimationTimeline` dataclass (the track dict as an association list). -/
structure AnimationTimeline where
  duration : ℚ
  frame_rate : ℤ
  tracks : List (String × TimelineTrack)
  current_time : ℚ
  loop : Bool
deriving DecidableEq

namespace AnimationTimeline

/-- `seek(time)`: clamp into `[0, duration]` unconditionally. -/
def seek (tl : AnimationTimeline) (time : ℚ) : AnimationTimeline :=
  { tl with current_time := max 0 (min time tl.duration) }

/-- `advance(delta_time)`: loop wraps by Python `%` (with the `duration > 0`
guard), non-loop clamps into `[0, duration]`. -/
def advance (tl : AnimationTimeline) (delta_time : ℚ) : AnimationTimeline :=
  let next_time := tl.current_time + delta_time
  if tl.loop then
    { tl with current_time := if 0 < tl.duration then pymod next_time tl.duration else 0 }
  else
    { tl with current_time := min (max 0 next_time) tl.duration }

/-- `sample()`: per-object snapshot delegating to each track at
`current_time`. -/
def sample (tl : AnimationTimeline) : String → Option (String → Option Value) :=
  fun oid => (tl.tracks.lookup oid).map fun tr => tr.sample tl.current_time

end AnimationTimeline

/-- `AnimationPlayer` state. -/
structure AnimationPlayer where
  timeline : AnimationTimeline
  playing : Bool
  speed : ℚ
  direction : ℚ

namespace AnimationPlayer

/-- `update(delta_time)`: idle players sample without mutation; playing
players advance by `delta_time * speed * direction` first. -/
def update (p : AnimationPlayer) (delta_time : ℚ) :
    AnimationPlayer × (String → Option (String → Option Value)) :=
  if p.playing then
    let tl := p.timeline.advance (delta_time * p.speed * p.direction)
    ({ p with timeline := tl }, tl.sample)
  else
    (p, p.timeline.sample)

end AnimationPlayer

/-- `KeyframeRecorder` state. -/
structure KeyframeRecorder where
  auto_keyframe : Bool
  record_button_enabled : Bool

namespace KeyframeRecorder

/-- `record_change`: gate on the two flags, then build a keyframe and add it
through `add_keyframe` (whose locked failure propagates unchanged). -/
def record_change (rec : KeyframeRecorder) (tr : TimelineTrack) (pp : String)
    (v : Value) (time : ℚ) (interp : String) : TimelineTrack × Except Err Keyframe :=
  if ¬ (rec.auto_keyframe || rec.record_button_enabled) then
    (tr, Except.error Err.recordingDisabledError)
  else
    let kf : Keyframe := ⟨time, pp, v, interp⟩
    match tr.add_keyframe kf with
    | (t2, none) => (t2, Except.ok kf)
    | (t2, some e) => (t2, Except.error e)

end KeyframeRecorder

/-! ## Interpolation helper lemmas -/

theorem easedT_of_ne (t : ℚ) (mode : String) (h1 : mode ≠ "ease-in")
    (h2 : mode ≠ "ease-out") (h3 : mode ≠ "bezier") :
    easedT t mode = max 0 (min t 1) := by
  rw [easedT]
  rw [if_neg h1, if_neg h2, if_neg h3]

/-- The smoothstep polynomial maps `[0, 1]` into `[0, 1]`. -/
theorem smoothstep_mem_unit {x : ℚ} (h0 : 0 ≤ x) (h1 : x ≤ 1) :
    0 ≤ 3 * x * x - 2 * x * x * x ∧ 3 * x * x - 2 * x * x * x ≤ 1 := by
  constructor
  · nlinarith [mul_nonneg (mul_nonneg h0 h0) (show (0 : ℚ) ≤ 3 - 2 * x by linarith)]
  · nlinarith [mul_nonneg (mul_nonneg (show (0 : ℚ) ≤ 1 - x by linarith)
      (show (0 : ℚ) ≤ 1 - x by linarith)) (show (0 : ℚ) ≤ 1 + 2 * x by linarith)]

theorem easedT_nonneg (t : ℚ) (mode : String) : 0 ≤ easedT t mode := by
  have h0 : (0 : ℚ) ≤ max 0 (min t 1) := le_max_left _ _
  have h1 : max 0 (min t 1) ≤ 1 := max_le zero_le_one (min_le_right _ _)
  rw [easedT]
  split_ifs
  · nlinarith
  · nlinarith
  · exact (smoothstep_mem_unit h0 h1).1
  · exact h0

theorem easedT_le_one (t : ℚ) (mode : String) : easedT t mode ≤ 1 := by
  have h0 : (0 : ℚ) ≤ max 0 (min t 1) := le_max_left _ _
  have h1 : max 0 (min t 1) ≤ 1 := max_le zero_le_one (min_le_right _ _)
  rw [easedT]
  split_ifs
  · nlinarith
  · nlinarith
  · exact (smoothstep_mem_unit h0 h1).2
  · exact h1

theorem clamp_of_mem {x : ℚ} (h0 : 0 ≤ x) (h1 : x ≤ 1) : max 0 (min x 1) = x := by
  rw [min_eq_left h1, max_eq_right h0]

/-- The depth-one recursive call of the vector branch is the identity: the
eased progress already lies in `[0, 1]`, so re-clamping it in linear mode
returns it unchanged. -/
theorem easedT_linear_easedT (t : ℚ) (mode : String) :
    easedT (easedT t mode) "linear" = easedT t mode := by
  rw [easedT_of_ne _ "linear" (by decide) (by decide) (by decide)]
  exact clamp_of_mem (easedT_nonneg t mode) (easedT_le_one t mode)

/-- C4: `interpolate(start, end, t, mode)` first clamps `t` into `[0,1]`, then
returns `start + (end - start) * t'` with `t' = t` (linear, and any other
unlisted mode), `t' = t²` (ease-in), `t' = 1-(1-t)²` (ease-out),
`t' = 3t²-2t³` (bezier); for vectors of equal length the same formula is
applied element-wise by index. -/
theorem lerp_clamps_then_eases (s e t : ℚ) (xs ys : List ℚ) (mode : String)
    (hlen : xs.length = ys.length) :
    lerp (Value.scalar s) (Value.scalar e) t mode
      = some (Value.scalar (s + (e - s) *
          (if mode = "ease-in" then max 0 (min t 1) * max 0 (min t 1)
           else if mode = "ease-out" then
             1 - (1 - max 0 (min t 1)) * (1 - max 0 (min t 1))
           else if mode = "bezier" then
             3 * max 0 (min t 1) * max 0 (min t 1)
               - 2 * max 0 (min t 1) * max 0 (min t 1) * max 0 (min t 1)
           else max 0 (min t 1))))
    ∧ ∃ zs : List ℚ,
        lerp (Value.vector xs) (Value.vector ys) t mode = some (Value.vector zs)
        ∧ zs.length = xs.length
        ∧ ∀ (i : ℕ) (hx : i < xs.length) (hy : i < ys.length) (hz : i < zs.length),
            zs[i] = xs[i] + (ys[i] - xs[i]) *
              (if mode = "ease-in" then max 0 (min t 1) * max 0 (min t 1)
               else if mode = "ease-out" then
                 1 - (1 - max 0 (min t 1)) * (1 - max 0 (min t 1))
               else if mode = "bezier" then
                 3 * max 0 (min t 1) * max 0 (min t 1)
                   - 2 * max 0 (min t 1) * max 0 (min t 1) * max 0 (min t 1)
               else max 0 (min t 1))
    := by
  have hchain : easedT t mode
      = (if mode = "ease-in" then max 0 (min t 1) * max 0 (min t 1)
         else if mode = "ease-out" then
           1 - (1 - max 0 (min t 1)) * (1 - max 0 (min t 1))
         else if mode = "bezier" then
           3 * max 0 (min t 1) * max 0 (min t 1)
             - 2 * max 0 (min t 1) * max 0 (min t 1) * max 0 (min t 1)
         else max 0 (min t 1)) := by
    rw [easedT]
  constructor
  · simp only [lerp]
    rw [hchain]
  · refine ⟨_, rfl, ?_, ?_⟩
    · simp [hlen]
    · intro i hx hy hz
      simp only [List.getElem_zipWith, easedT_linear_easedT]
      exact congrArg (fun x => xs[i] + (ys[i] - xs[i]) * x) hchain

/-- Witness for C4 at concrete inputs (`t = 1/2`, bezier smoothstep gives
`t' = 1/2`). -/
theorem lerp_clamps_then_eases_witness :
    lerp (Value.scalar 0) (Value.scalar 10) (1/2) "bezier"
      = some (Value.scalar 5) := by
  refine (lerp_clamps_then_eases 0 10 (1/2) [1] [2] "bezier" rfl).1.trans ?_
  rw [if_neg (by decide), if_neg (by decide), if_pos rfl]
  norm_num [min_def, max_def]

/-- C10: any curve mode other than `"ease-in"`, `"ease-out"`, `"bezier"`
(including arbitrary unknown strings) behaves exactly like linear mode; no
error is raised. -/
theorem lerp_unknown_mode_linear (s e : Value) (t : ℚ) (mode : String)
    (h1 : mode ≠ "ease-in") (h2 : mode ≠ "ease-out") (h3 : mode ≠ "bezier") :
    lerp s e t mode = lerp s e t "linear"
    ∧ ∀ a b : ℚ, lerp (Value.scalar a) (Value.scalar b) t mode
        = some (Value.scalar (a + (b - a) * max 0 (min t 1))) := by
  have hm : easedT t mode = easedT t "linear" := by
    rw [easedT_of_ne t mode h1 h2 h3,
      easedT_of_ne t "linear" (by decide) (by decide) (by decide)]
  constructor
  · simp only [lerp]
    rw [hm]
  · intro a b
    simp only [lerp]
    rw [easedT_of_ne t mode h1 h2 h3]

/-- Witness for C10: the unknown mode `"step"` interpolates linearly. -/
theorem lerp_unknown_mode_linear_witness :
    lerp (Value.scalar 0) (Value.scalar 10) (3/4) "step"
      = some (Value.scalar (15/2)) := by
  refine ((lerp_unknown_mode_linear (Value.scalar 0) (Value.scalar 10) (3/4) "step"
    (by decide) (by decide) (by decide)).2 0 10).trans ?_
  norm_num [min_def, max_def]

/-- C1 evidence: on vectors of different lengths the code does **not** fail;
Python's `zip` silently truncates to the shorter vector.  Interpolating the
length-2 vector `[0, 1]` toward the length-1 vector `[2]` at `t = 1/2`
returns the length-1 result `[1]` instead of raising `ShapeMismatchError`. -/
theorem lerp_mismatched_vectors_truncate :
    lerp (Value.vector [0, 1]) (Value.vector [2]) (1/2) "linear"
      = some (Value.vector [1]) := by
  have h : easedT (1/2 : ℚ) "linear" = 1/2 := by
    rw [easedT_of_ne _ "linear" (by decide) (by decide) (by decide)]
    norm_num [min_def, max_def]
  simp only [lerp, h, List.zipWith]
  norm_num

/-! ## Playhead arithmetic (advance) -/

theorem pymod_eq_sub_int_mul (x d : ℚ) : ∃ k : ℤ, pymod x d = x - k * d :=
  ⟨⌊x / d⌋, by rw [pymod]; ring⟩

theorem pymod_nonneg {x d : ℚ} (hd : 0 < d) : 0 ≤ pymod x d := by
  have h := Int.floor_le (x / d)
  have h2 : d * ((⌊x / d⌋ : ℤ) : ℚ) ≤ d * (x / d) :=
    mul_le_mul_of_nonneg_left h (le_of_lt hd)
  have h3 : d * (x / d) = x := by
    field_simp
  rw [pymod]
  linarith

theorem pymod_lt {x d : ℚ} (hd : 0 < d) : pymod x d < d := by
  have h := Int.lt_floor_add_one (x / d)
  have h2 : d * (x / d) < d * (((⌊x / d⌋ : ℤ) : ℚ) + 1) := by
    exact (mul_lt_mul_left hd).mpr h
  have h3 : d * (x / d) = x := by
    field_simp
  rw [pymod]
  nlinarith

/-- C3: `advance(delta_time)` for any delta (including negative): with
`loop`, the playhead becomes `(current_time + delta) mod duration`
normalized into `[0, duration)` (and `0` when `duration = 0`); without
`loop` it is clamped into `[0, duration]`.  In particular, with
`duration = 2` and loop, advancing by `5` from `0` gives `1`, and advancing
by `-0.5` from `0.2` gives `1.7`. -/
theorem advance_loop_wraps_clamp_otherwise (tl : AnimationTimeline) (dt : ℚ)
    (hd : 0 ≤ tl.duration) :
    (tl.loop = true →
       (0 < tl.duration →
          (tl.advance dt).current_time = pymod (tl.current_time + dt) tl.duration
          ∧ (∃ k : ℤ,
              (tl.advance dt).current_time = tl.current_time + dt - k * tl.duration)
          ∧ 0 ≤ (tl.advance dt).current_time
          ∧ (tl.advance dt).current_time < tl.duration)
       ∧ (tl.duration = 0 → (tl.advance dt).current_time = 0))
    ∧ (tl.loop = false →
        (tl.advance dt).current_time = min (max 0 (tl.current_time + dt)) tl.duration
        ∧ 0 ≤ (tl.advance dt).current_time
        ∧ (tl.advance dt).current_time ≤ tl.duration)
    ∧ (AnimationTimeline.advance ⟨2, 60, [], 0, true⟩ 5).current_time = 1
    ∧ (AnimationTimeline.advance ⟨2, 60, [], 1/5, true⟩ (-(1/2))).current_time = 17/10
    := by
  refine ⟨?_, ?_, ?_, ?_⟩
  · intro hl
    constructor
    · intro hpos
      have hct : (tl.advance dt).current_time = pymod (tl.current_time + dt) tl.duration := by
        simp [AnimationTimeline.advance, hl, hpos]
      rw [hct]
      exact ⟨rfl, pymod_eq_sub_int_mul _ _, pymod_nonneg hpos, pymod_lt hpos⟩
    · intro h0
      simp [AnimationTimeline.advance, hl, h0]
  · intro hl
    have hct : (tl.advance dt).current_time
        = min (max 0 (tl.current_time + dt)) tl.duration := by
      simp [AnimationTimeline.advance, hl]
    rw [hct]
    exact ⟨rfl, le_min (le_max_left _ _) hd, min_le_right _ _⟩
  · norm_num [AnimationTimeline.advance, pymod]
  · norm_num [AnimationTimeline.advance, pymod]

/-- Witness for C3: the two concrete loop-wrap computations, via the main
theorem applied to concrete timelines. -/
theorem advance_loop_wraps_witness :
    (AnimationTimeline.advance ⟨2, 60, [], 0, true⟩ 5).current_time = 1
    ∧ (AnimationTimeline.advance ⟨2, 60, [], 1/5, true⟩ (-(1/2))).current_time = 17/10 :=
  ⟨(advance_loop_wraps_clamp_otherwise ⟨2, 60, [], 0, true⟩ 5 (by norm_num)).2.2.1,
   (advance_loop_wraps_clamp_otherwise ⟨2, 60, [], 1/5, true⟩ (-(1/2))
      (by norm_num)).2.2.2⟩

/-! ## Lock enforcement -/

/-- C6: every mutating operation on a locked track fails with `LockedError`
and returns the track exactly unchanged (the lock is checked before any
mutation, so there is no partial update). -/
theorem locked_track_mutations_fail (tr : TimelineTrack) (hl : tr.locked = true)
    (kf : Keyframe) (pp : String) (t1 t2 off : ℚ) (kfs : List Keyframe) :
    tr.add_keyframe kf = (tr, some Err.lockedError)
    ∧ tr.delete_keyframe pp t1 = (tr, some Err.lockedError)
    ∧ tr.move_keyframe pp t1 t2 = (tr, some Err.lockedError)
    ∧ tr.paste_keyframes off kfs = (tr, some Err.lockedError) := by
  refine ⟨?_, ?_, ?_, ?_⟩ <;>
    simp [TimelineTrack.add_keyframe, TimelineTrack.delete_keyframe,
      TimelineTrack.move_keyframe, TimelineTrack.paste_keyframes, hl]

/-- Witness for C6 on a concrete locked track. -/
theorem locked_track_mutations_fail_witness :
    TimelineTrack.add_keyframe ⟨"cube", [], false, true⟩
        ⟨0, "x", Value.scalar 0, "linear"⟩
      = (⟨"cube", [], false, true⟩, some Err.lockedError)
    ∧ TimelineTrack.paste_keyframes ⟨"cube", [], false, true⟩ 1
        [⟨0, "x", Value.scalar 0, "linear"⟩]
      = (⟨"cube", [], false, true⟩, some Err.lockedError) :=
  ⟨(locked_track_mutations_fail ⟨"cube", [], false, true⟩ rfl
      ⟨0, "x", Value.scalar 0, "linear"⟩ "x" 0 0 1
      [⟨0, "x", Value.scalar 0, "linear"⟩]).1,
   (locked_track_mutations_fail ⟨"cube", [], false, true⟩ rfl
      ⟨0, "x", Value.scalar 0, "linear"⟩ "x" 0 0 1
      [⟨0, "x", Value.scalar 0, "linear"⟩]).2.2.2⟩

/-! ## Idle player update -/

/-- C8: `Player.update(dt)` with `playing = false` leaves the player (and in
particular the wrapped timeline with its `current_time`) unchanged and
returns exactly `timeline.sample()`. -/
theorem player_update_idle (p : AnimationPlayer) (dt : ℚ) (hp : p.playing = false) :
    p.update dt = (p, p.timeline.sample) := by
  simp [AnimationPlayer.update, hp]

/-- Witness for C8 on a concrete paused player. -/
theorem player_update_idle_witness :
    AnimationPlayer.update ⟨⟨2, 60, [], 1, false⟩, false, 1, 1⟩ 3
      = (⟨⟨2, 60, [], 1, false⟩, false, 1, 1⟩,
         AnimationTimeline.sample ⟨2, 60, [], 1, false⟩) :=
  player_update_idle ⟨⟨2, 60, [], 1, false⟩, false, 1, 1⟩ 3 rfl

/-! ## Recorder gating -/

/-- C9: `record_change` fails with `RecordingDisabledError` (adding nothing)
when both flags are off; with a flag on it builds the keyframe and inserts it
through `add_keyframe`, propagating `LockedError` unchanged on a locked
track. -/
theorem record_change_gating (rec : KeyframeRecorder) (tr : TimelineTrack)
    (pp : String) (v : Value) (time : ℚ) (interp : String) :
    (rec.auto_keyframe = false ∧ rec.record_button_enabled = false →
       rec.record_change tr pp v time interp
         = (tr, Except.error Err.recordingDisabledError))
    ∧ ((rec.auto_keyframe || rec.record_button_enabled) = true →
        (tr.locked = false →
           rec.record_change tr pp v time interp
             = ((tr.add_keyframe ⟨time, pp, v, interp⟩).1,
                Except.ok ⟨time, pp, v, interp⟩))
        ∧ (tr.locked = true →
           rec.record_change tr pp v time interp
             = (tr, Except.error Err.lockedError))) := by
  refine ⟨?_, ?_⟩
  · rintro ⟨h1, h2⟩
    simp [KeyframeRecorder.record_change, h1, h2]
  · intro hflag
    refine ⟨?_, ?_⟩
    · intro hlock
      simp [KeyframeRecorder.record_change, hflag, TimelineTrack.add_keyframe, hlock]
    · intro hlock
      simp [KeyframeRecorder.record_change, hflag, TimelineTrack.add_keyframe, hlock]

/-- Witness for C9: disabled recorder fails without touching the track;
enabled recorder propagates the locked failure unchanged. -/
theorem record_change_gating_witness :
    KeyframeRecorder.record_change ⟨false, false⟩ ⟨"cube", [], false, false⟩ "x"
        (Value.scalar 1) 0 "linear"
      = (⟨"cube", [], false, false⟩, Except.error Err.recordingDisabledError)
    ∧ KeyframeRecorder.record_change ⟨true, false⟩ ⟨"cube", [], false, true⟩ "x"
        (Value.scalar 1) 0 "linear"
      = (⟨"cube", [], false, true⟩, Except.error Err.lockedError) :=
  ⟨(record_change_gating ⟨false, false⟩ ⟨"cube", [], false, false⟩ "x"
      (Value.scalar 1) 0 "linear").1 ⟨rfl, rfl⟩,
   ((record_change_gating ⟨true, false⟩ ⟨"cube", [], false, true⟩ "x"
      (Value.scalar 1) 0 "linear").2 rfl).2 rfl⟩

/-! ## Sort invariant infrastructure -/

theorem sortByTime_sorted (l : List Keyframe) : SortedByTime (sortByTime l) :=
  List.sorted_insertionSort timeLE l

theorem sortByTime_of_sorted {l : List Keyframe} (h : SortedByTime l) :
    sortByTime l = l :=
  List.Sorted.insertionSort_eq h

theorem mem_sortByTime {l : List Keyframe} {x : Keyframe} :
    x ∈ sortByTime l ↔ x ∈ l :=
  (List.perm_insertionSort timeLE l).mem_iff

theorem add_keyframe_locked_eq (tr : TimelineTrack) (kf : Keyframe) :
    (tr.add_keyframe kf).1.locked = tr.locked := by
  rw [TimelineTrack.add_keyframe]
  split_ifs <;> rfl

theorem add_keyframe_unlocked (tr : TimelineTrack) (kf : Keyframe)
    (hl : tr.locked = false) :
    tr.add_keyframe kf
      = ({ tr with keyframes := sortByTime (tr.keyframes ++ [kf]) }, none) := by
  rw [TimelineTrack.add_keyframe, if_neg (by simp [hl])]

theorem add_keyframe_sorted (tr : TimelineTrack) (kf : Keyframe)
    (hl : tr.locked = false) :
    SortedByTime (tr.add_keyframe kf).1.keyframes := by
  rw [add_keyframe_unlocked tr kf hl]
  exact sortByTime_sorted _

theorem move_keyframe_sorted (tr : TimelineTrack) (pp : String) (t1 t2 : ℚ)
    (hl : tr.locked = false) :
    SortedByTime (tr.move_keyframe pp t1 t2).1.keyframes := by
  rw [TimelineTrack.move_keyframe, if_neg (by simp [hl])]
  exact sortByTime_sorted _

theorem move_keyframe_locked_eq (tr : TimelineTrack) (pp : String) (t1 t2 : ℚ) :
    (tr.move_keyframe pp t1 t2).1.locked = tr.locked := by
  rw [TimelineTrack.move_keyframe]
  split_ifs <;> rfl

theorem pasteLoop_preserves (off : ℚ) :
    ∀ (l : List Keyframe) (tr : TimelineTrack), tr.locked = false →
      SortedByTime tr.keyframes →
      (TimelineTrack.pasteLoop off tr l).1.locked = false
      ∧ SortedByTime (TimelineTrack.pasteLoop off tr l).1.keyframes := by
  intro l
  induction l with
  | nil => intro tr hl hs; exact ⟨hl, hs⟩
  | cons kf rest ih =>
    intro tr hl hs
    rw [TimelineTrack.pasteLoop, add_keyframe_unlocked tr _ hl]
    exact ih _ hl (sortByTime_sorted _)

theorem paste_keyframes_preserves (tr : TimelineTrack) (off : ℚ)
    (kfs : List Keyframe) (hl : tr.locked = false) (hs : SortedByTime tr.keyframes) :
    (tr.paste_keyframes off kfs).1.locked = false
    ∧ SortedByTime (tr.paste_keyframes off kfs).1.keyframes := by
  rw [TimelineTrack.paste_keyframes, if_neg (by simp [hl])]
  exact pasteLoop_preserves off kfs tr hl hs

/-- The edit operations quantified over by the sort-invariant property. -/
inductive EditOp where
  | add (kf : Keyframe)
  | move (pp : String) (oldT newT : ℚ)
  | paste (offset : ℚ) (kfs : List Keyframe)

/-- Run one edit operation. -/
def applyOp (tr : TimelineTrack) : EditOp → TimelineTrack × Option Err
  | EditOp.add kf => tr.add_keyframe kf
  | EditOp.move pp oldT newT => tr.move_keyframe pp oldT newT
  | EditOp.paste off kfs => tr.paste_keyframes off kfs

/-- Run a finite sequence of edit operations, threading the track state. -/
def applyOps : TimelineTrack → List EditOp → TimelineTrack
  | tr, [] => tr
  | tr, op :: rest => applyOps (applyOp tr op).1 rest

theorem applyOp_preserves (tr : TimelineTrack) (op : EditOp)
    (hl : tr.locked = false) (hs : SortedByTime tr.keyframes) :
    (applyOp tr op).1.locked = false ∧ SortedByTime (applyOp tr op).1.keyframes := by
  cases op with
  | add kf =>
    exact ⟨(add_keyframe_locked_eq tr kf).trans hl, add_keyframe_sorted tr kf hl⟩
  | move pp oldT newT =>
    exact ⟨(move_keyframe_locked_eq tr pp oldT newT).trans hl,
      move_keyframe_sorted tr pp oldT newT hl⟩
  | paste off kfs =>
    exact paste_keyframes_preserves tr off kfs hl hs

theorem applyOps_preserves :
    ∀ (ops : List EditOp) (tr : TimelineTrack), tr.locked = false →
      SortedByTime tr.keyframes → SortedByTime (applyOps tr ops).keyframes := by
  intro ops
  induction ops with
  | nil => intro tr _ hs; exact hs
  | cons op rest ih =>
    intro tr hl hs
    obtain ⟨hl2, hs2⟩ := applyOp_preserves tr op hl hs
    exact ih _ hl2 hs2

/-- C5: after any finite sequence of `add_keyframe` / `move_keyframe` /
`paste_keyframes` calls on an unlocked track (starting from a track whose
keyframes satisfy the documented sorted invariant, e.g. a freshly created
empty track), the keyframes sequence is non-decreasing by time. -/
theorem edit_sequence_keeps_sorted (tr : TimelineTrack) (ops : List EditOp)
    (hl : tr.locked = false) (hs : SortedByTime tr.keyframes) :
    SortedByTime (applyOps tr ops).keyframes :=
  applyOps_preserves ops tr hl hs

/-- Witness for C5: a concrete sequence of out-of-order edits on a fresh,
empty, unlocked track. -/
theorem edit_sequence_keeps_sorted_witness :
    SortedByTime (applyOps ⟨"cube", [], false, false⟩
      [EditOp.add ⟨2, "x", Value.scalar 2, "linear"⟩,
       EditOp.add ⟨1, "x", Value.scalar 1, "linear"⟩,
       EditOp.move "x" 2 0,
       EditOp.paste 5 [⟨0, "y", Value.scalar 0, "linear"⟩]]).keyframes :=
  edit_sequence_keeps_sorted ⟨"cube", [], false, false⟩
    [EditOp.add ⟨2, "x", Value.scalar 2, "linear"⟩,
     EditOp.add ⟨1, "x", Value.scalar 1, "linear"⟩,
     EditOp.move "x" 2 0,
     EditOp.paste 5 [⟨0, "y", Value.scalar 0, "linear"⟩]]
    rfl (List.sorted_nil)

/-! ## Copy/paste round trip -/

/-- Pasting a list whose shifted form extends the accumulated (sorted)
keyframes in order just appends it: every single `add_keyframe` re-sorts an
already sorted list. -/
theorem pasteLoop_of_sorted (off : ℚ) :
    ∀ (l acc : List Keyframe) (oid : String) (m : Bool),
      SortedByTime (acc ++ l.map
        (fun kf => Keyframe.mk (kf.time + off) kf.property_path kf.value kf.interpolation)) →
      TimelineTrack.pasteLoop off ⟨oid, acc, m, false⟩ l
        = (⟨oid, acc ++ l.map
              (fun kf => Keyframe.mk (kf.time + off) kf.property_path kf.value kf.interpolation),
            m, false⟩, none) := by
  intro l
  induction l with
  | nil =>
    intro acc oid m h
    simp [TimelineTrack.pasteLoop]
  | cons kf rest ih =>
    intro acc oid m h
    have hsub : List.Sublist
        (acc ++ [Keyframe.mk (kf.time + off) kf.property_path kf.value kf.interpolation])
        (acc ++ (kf :: rest).map
          (fun kf => Keyframe.mk (kf.time + off) kf.property_path kf.value kf.interpolation)) := by
      rw [List.map_cons]
      exact List.Sublist.append_left (List.cons_sublist_cons.mpr (List.nil_sublist _)) acc
    have hs1 : SortedByTime
        (acc ++ [Keyframe.mk (kf.time + off) kf.property_path kf.value kf.interpolation]) :=
      List.Pairwise.sublist hsub h
    rw [TimelineTrack.pasteLoop,
      add_keyframe_unlocked ⟨oid, acc, m, false⟩ _ rfl]
    have hkeys : sortByTime
        (acc ++ [Keyframe.mk (kf.time + off) kf.property_path kf.value kf.interpolation])
        = acc ++ [Keyframe.mk (kf.time + off) kf.property_path kf.value kf.interpolation] :=
      sortByTime_of_sorted hs1
    simp only [hkeys]
    have happ : (acc ++ [Keyframe.mk (kf.time + off) kf.property_path kf.value kf.interpolation])
          ++ rest.map
            (fun kf => Keyframe.mk (kf.time + off) kf.property_path kf.value kf.interpolation)
        = acc ++ (kf :: rest).map
            (fun kf => Keyframe.mk (kf.time + off) kf.property_path kf.value kf.interpolation) := by
      rw [List.map_cons, List.append_assoc, List.singleton_append]
    rw [ih (acc ++ [Keyframe.mk (kf.time + off) kf.property_path kf.value kf.interpolation])
        oid m (by rw [happ]; exact h)]
    rw [happ]

/-- Shifting a copied (rebased) keyframe back by the window start restores the
original keyframe. -/
theorem shift_rebase (s : ℚ) (kf : Keyframe) :
    Keyframe.mk ((kf.time - s) + s) kf.property_path kf.value kf.interpolation = kf := by
  cases kf with
  | mk t pp v i => simp

/-- C7: `copy_keyframes(start, end)` returns exactly the keyframes in the
window, rebased by `-start`, ignoring mute/lock flags (and, being pure, it
cannot mutate the source); pasting the copy back with `offset = start` into
an empty unlocked track reproduces the original windowed keyframes at their
absolute times and values. -/
theorem copy_paste_round_trip (tr : TimelineTrack) (s e : ℚ) :
    (∀ kf2, kf2 ∈ tr.copy_keyframes s e ↔ ∃ kf, kf ∈ tr.keyframes
        ∧ (s ≤ kf.time ∧ kf.time ≤ e)
        ∧ Keyframe.mk (kf.time - s) kf.property_path kf.value kf.interpolation = kf2)
    ∧ (∀ bm bl : Bool,
        TimelineTrack.copy_keyframes ⟨tr.object_id, tr.keyframes, bm, bl⟩ s e
          = tr.copy_keyframes s e)
    ∧ (SortedByTime tr.keyframes → ∀ (oid : String) (m : Bool),
        TimelineTrack.paste_keyframes ⟨oid, [], m, false⟩ s (tr.copy_keyframes s e)
          = (⟨oid, tr.keyframes.filter (fun kf => decide (s ≤ kf.time ∧ kf.time ≤ e)),
              m, false⟩, none)) := by
  refine ⟨?_, ?_, ?_⟩
  · intro kf2
    simp [TimelineTrack.copy_keyframes, List.mem_map, List.mem_filter,
      decide_eq_true_eq, and_assoc]
  · intro bm bl
    rfl
  · intro hs oid m
    have hunlock : TimelineTrack.paste_keyframes ⟨oid, [], m, false⟩ s
          (tr.copy_keyframes s e)
        = TimelineTrack.pasteLoop s ⟨oid, [], m, false⟩ (tr.copy_keyframes s e) := by
      rw [TimelineTrack.paste_keyframes, if_neg (by simp)]
    have hmap : ((tr.keyframes.filter (fun kf => decide (s ≤ kf.time ∧ kf.time ≤ e))).map
          (fun kf => Keyframe.mk (kf.time - s) kf.property_path kf.value kf.interpolation)).map
          (fun kf => Keyframe.mk (kf.time + s) kf.property_path kf.value kf.interpolation)
        = tr.keyframes.filter (fun kf => decide (s ≤ kf.time ∧ kf.time ≤ e)) := by
      rw [List.map_map]
      have hid : ∀ kf ∈ tr.keyframes.filter (fun kf => decide (s ≤ kf.time ∧ kf.time ≤ e)),
          ((fun kf => Keyframe.mk (kf.time + s) kf.property_path kf.value kf.interpolation) ∘
            (fun kf => Keyframe.mk (kf.time - s) kf.property_path kf.value kf.interpolation)) kf
            = id kf := by
        intro kf _
        simp only [Function.comp_apply, id_eq]
        exact shift_rebase s kf
      rw [List.map_congr_left hid, List.map_id]
    rw [hunlock, TimelineTrack.copy_keyframes,
      pasteLoop_of_sorted s _ [] oid m (by rw [List.nil_append, hmap]; exact hs.filter _),
      List.nil_append, hmap]

/-- Witness for C7: the spec's round-trip example, keyframes at times 1 and 2
copied over the window `[1, 2]` and pasted with offset 1 into an empty
track. -/
theorem copy_paste_round_trip_witness :
    TimelineTrack.paste_keyframes ⟨"t2", [], false, false⟩ 1
        (TimelineTrack.copy_keyframes
          ⟨"cube", [⟨1, "x", Value.scalar 1, "linear"⟩,
                    ⟨2, "x", Value.scalar 2, "linear"⟩], false, false⟩ 1 2)
      = (⟨"t2", [⟨1, "x", Value.scalar 1, "linear"⟩,
                 ⟨2, "x", Value.scalar 2, "linear"⟩], false, false⟩, none) := by
  refine ((copy_paste_round_trip
      ⟨"cube", [⟨1, "x", Value.scalar 1, "linear"⟩,
                ⟨2, "x", Value.scalar 2, "linear"⟩], false, false⟩ 1 2).2.2
      ?_ "t2" false).trans ?_
  · simp only [SortedByTime, List.sorted_cons, List.mem_singleton,
      List.mem_cons, List.not_mem_nil, or_false, forall_eq, timeLE]
    norm_num
  · norm_num [List.filter_cons, decide_eq_true_eq]

/-! ## Sampling between adjacent keyframes -/

/-- The `before` accumulator of the find loop ends up holding the last
element (in scan order) whose time is at or before the query, falling back to
its initial value. -/
theorem findLoop_fst (t : ℚ) :
    ∀ (l : List Keyframe) (b a : Option Keyframe),
      (TimelineTrack.findLoop t l b a).1
        = ((l.filter (fun k => decide (k.time ≤ t))).getLast?).or b := by
  intro l
  induction l with
  | nil =>
    intro b a
    simp [TimelineTrack.findLoop]
  | cons kf rest ih =>
    intro b a
    by_cases h : kf.time ≤ t
    · rw [TimelineTrack.findLoop, if_pos h, ih,
        List.filter_cons_of_pos (by simp [h]), List.getLast?_cons]
      cases hx : (rest.filter (fun k => decide (k.time ≤ t))).getLast? with
      | none => simp [hx, Option.or]
      | some y => simp [hx, Option.or]
    · rw [TimelineTrack.findLoop, if_neg h, List.filter_cons_of_neg (by simp [h])]
      by_cases h2 : t < kf.time ∧ a = none
      · rw [if_pos h2, ih]
      · rw [if_neg h2, ih]

/-- Once the `after` accumulator is set it is never overwritten. -/
theorem findLoop_snd_some (t : ℚ) :
    ∀ (l : List Keyframe) (b : Option Keyframe) (x : Keyframe),
      (TimelineTrack.findLoop t l b (some x)).2 = some x := by
  intro l
  induction l with
  | nil => intro b x; rfl
  | cons kf rest ih =>
    intro b x
    rw [TimelineTrack.findLoop]
    by_cases h : kf.time ≤ t
    · rw [if_pos h]
      exact ih _ x
    · rw [if_neg h, if_neg (by simp)]
      exact ih _ x

/-- Starting unset, the `after` accumulator ends as the first scanned element
strictly after the query time. -/
theorem findLoop_snd (t : ℚ) :
    ∀ (l : List Keyframe) (b : Option Keyframe),
      (TimelineTrack.findLoop t l b none).2
        = l.find? (fun k => decide (t < k.time)) := by
  intro l
  induction l with
  | nil => intro b; rfl
  | cons kf rest ih =>
    intro b
    rw [TimelineTrack.findLoop]
    by_cases h : kf.time ≤ t
    · rw [if_pos h, ih, List.find?_cons_of_neg _ (by simp [not_lt.mpr h])]
    · rw [if_neg h, if_pos ⟨not_le.mp h, rfl⟩, findLoop_snd_some t rest b kf,
        List.find?_cons_of_pos _ (by simp [not_le.mp h])]

/-- In a time-sorted list the last element is a maximum. -/
theorem sorted_getLast?_ge :
    ∀ {l : List Keyframe}, SortedByTime l → ∀ {x : Keyframe},
      l.getLast? = some x → ∀ k ∈ l, k.time ≤ x.time := by
  intro l
  induction l with
  | nil =>
    intro _ x hx
    simp at hx
  | cons y rest ih =>
    intro hs x hx k hk
    cases rest with
    | nil =>
      have hyx : y = x := by simpa using hx
      have hky : k = y := by simpa using hk
      rw [hky, hyx]
    | cons z rest2 =>
      rw [List.getLast?_cons_cons] at hx
      rcases List.mem_cons.mp hk with hky | hk2
      · have hxmem : x ∈ z :: rest2 := List.mem_of_getLast?_eq_some hx
        rw [hky]
        exact List.rel_of_sorted_cons hs x hxmem
      · exact ih hs.of_cons hx k hk2

/-- In a time-sorted list, the first element strictly after the query is a
minimum among all elements strictly after the query. -/
theorem sorted_find?_le (t : ℚ) :
    ∀ {l : List Keyframe}, SortedByTime l → ∀ {x : Keyframe},
      l.find? (fun k => decide (t < k.time)) = some x →
      ∀ k ∈ l, t < k.time → x.time ≤ k.time := by
  intro l
  induction l with
  | nil =>
    intro _ x hx
    simp at hx
  | cons y rest ih =>
    intro hs x hx k hk hkt
    by_cases hy : t < y.time
    · rw [List.find?_cons_of_pos _ (by simp [hy])] at hx
      have hyx : y = x := by simpa using hx
      rcases List.mem_cons.mp hk with hky | hk2
      · rw [hky, hyx]
      · rw [← hyx]
        exact List.rel_of_sorted_cons hs k hk2
    · rw [List.find?_cons_of_neg _ (by simp [hy])] at hx
      rcases List.mem_cons.mp hk with hky | hk2
      · rw [hky] at hkt
        exact absurd hkt hy
      · exact ih hs.of_cons hx k hk2 hkt

/-- C2: on an unmuted track, for a property path having a keyframe at or
before the query time and another strictly after it, `sample` interpolates
from the latest not-after keyframe `b` toward the earliest strictly-after
keyframe `a` with `t = (time - b.time) / (a.time - b.time)` (0 on a zero
denominator), using `a`'s (the arrival keyframe's) curve mode. -/
theorem sample_interpolates_between_adjacent (tr : TimelineTrack) (time : ℚ)
    (path : String) (hm : tr.muted = false)
    (hb : ∃ k ∈ tr.siblingsOf path, k.time ≤ time)
    (ha : ∃ k ∈ tr.siblingsOf path, time < k.time) :
    ∃ b ∈ tr.siblingsOf path, ∃ a ∈ tr.siblingsOf path,
      b.time ≤ time
      ∧ (∀ k ∈ tr.siblingsOf path, k.time ≤ time → k.time ≤ b.time)
      ∧ time < a.time
      ∧ (∀ k ∈ tr.siblingsOf path, time < k.time → a.time ≤ k.time)
      ∧ tr.sample time path
          = lerp b.value a.value
              (if a.time = b.time then 0 else (time - b.time) / (a.time - b.time))
              a.interpolation := by
  have hsort : SortedByTime (sortByTime (tr.siblingsOf path)) :=
    sortByTime_sorted (tr.siblingsOf path)
  obtain ⟨kb, hkbmem, hkble⟩ := hb
  have hkbL : kb ∈ (sortByTime (tr.siblingsOf path)).filter
      (fun k => decide (k.time ≤ time)) :=
    List.mem_filter.mpr ⟨mem_sortByTime.mpr hkbmem, by simp [hkble]⟩
  have hfne : (sortByTime (tr.siblingsOf path)).filter
      (fun k => decide (k.time ≤ time)) ≠ [] := by
    intro hnil
    rw [hnil] at hkbL
    exact List.not_mem_nil _ hkbL
  obtain ⟨b, hbLast⟩ := Option.isSome_iff_exists.mp (List.getLast?_isSome.mpr hfne)
  have hfst : (TimelineTrack.find_adjacent_keyframes (tr.siblingsOf path) time).1
      = some b := by
    rw [TimelineTrack.find_adjacent_keyframes, findLoop_fst, hbLast]
    rfl
  have hbfil : b ∈ (sortByTime (tr.siblingsOf path)).filter
      (fun k => decide (k.time ≤ time)) :=
    List.mem_of_getLast?_eq_some hbLast
  have hbmem : b ∈ tr.siblingsOf path :=
    mem_sortByTime.mp (List.mem_filter.mp hbfil).1
  have hble : b.time ≤ time := by
    have := (List.mem_filter.mp hbfil).2
    simpa using this
  have hmax : ∀ k ∈ tr.siblingsOf path, k.time ≤ time → k.time ≤ b.time := by
    intro k hk hkt
    exact sorted_getLast?_ge (hsort.filter _) hbLast k
      (List.mem_filter.mpr ⟨mem_sortByTime.mpr hk, by simp [hkt]⟩)
  obtain ⟨ka, hkamem, hkat⟩ := ha
  have hfindSome : ((sortByTime (tr.siblingsOf path)).find?
      (fun k => decide (time < k.time))).isSome :=
    List.find?_isSome.mpr ⟨ka, mem_sortByTime.mpr hkamem, by simp [hkat]⟩
  obtain ⟨a, haFind⟩ := Option.isSome_iff_exists.mp hfindSome
  have hsnd : (TimelineTrack.find_adjacent_keyframes (tr.siblingsOf path) time).2
      = some a := by
    rw [TimelineTrack.find_adjacent_keyframes, findLoop_snd, haFind]
  have hamem : a ∈ tr.siblingsOf path :=
    mem_sortByTime.mp (List.mem_of_find?_eq_some haFind)
  have halt : time < a.time := by
    have := List.find?_some haFind
    simpa using this
  have hmin : ∀ k ∈ tr.siblingsOf path, time < k.time → a.time ≤ k.time := by
    intro k hk hkt
    exact sorted_find?_le time hsort haFind k (mem_sortByTime.mpr hk) hkt
  have hpair : TimelineTrack.find_adjacent_keyframes (tr.siblingsOf path) time
      = (some b, some a) := by
    rw [← hfst, ← hsnd]
  refine ⟨b, hbmem, a, hamem, hble, hmax, halt, hmin, ?_⟩
  have hne : a.time ≠ b.time := ne_of_gt (lt_of_le_of_lt hble halt)
  rw [TimelineTrack.sample, if_neg (by simp [hm])]
  simp only [TimelineTrack.interpolate_values, hpair]
  rw [if_pos hne, if_neg hne]

/-- Witness for C2: a two-keyframe linear track sampled midway between its
keyframes (times 0 and 1, values 0 and 10, query 1/2). -/
theorem sample_interpolates_between_adjacent_witness :
    ∃ b ∈ TimelineTrack.siblingsOf
        ⟨"cube", [⟨0, "x", Value.scalar 0, "linear"⟩,
                  ⟨1, "x", Value.scalar 10, "linear"⟩], false, false⟩ "x",
    ∃ a ∈ TimelineTrack.siblingsOf
        ⟨"cube", [⟨0, "x", Value.scalar 0, "linear"⟩,
                  ⟨1, "x", Value.scalar 10, "linear"⟩], false, false⟩ "x",
      b.time ≤ 1/2
      ∧ (∀ k ∈ TimelineTrack.siblingsOf
            ⟨"cube", [⟨0, "x", Value.scalar 0, "linear"⟩,
                      ⟨1, "x", Value.scalar 10, "linear"⟩], false, false⟩ "x",
          k.time ≤ 1/2 → k.time ≤ b.time)
      ∧ (1:ℚ)/2 < a.time
      ∧ (∀ k ∈ TimelineTrack.siblingsOf
            ⟨"cube", [⟨0, "x", Value.scalar 0, "linear"⟩,
                      ⟨1, "x", Value.scalar 10, "linear"⟩], false, false⟩ "x",
          1/2 < k.time → a.time ≤ k.time)
      ∧ TimelineTrack.sample
          ⟨"cube", [⟨0, "x", Value.scalar 0, "linear"⟩,
                    ⟨1, "x", Value.scalar 10, "linear"⟩], false, false⟩ (1/2) "x"
          = lerp b.value a.value
              (if a.time = b.time then 0 else ((1:ℚ)/2 - b.time) / (a.time - b.time))
              a.interpolation :=
  sample_interpolates_between_adjacent
    ⟨"cube", [⟨0, "x", Value.scalar 0, "linear"⟩,
              ⟨1, "x", Value.scalar 10, "linear"⟩], false, false⟩ (1/2) "x" rfl
    ⟨⟨0, "x", Value.scalar 0, "linear"⟩,
      by norm_num [TimelineTrack.siblingsOf, List.filter_cons]⟩
    ⟨⟨1, "x", Value.scalar 10, "linear"⟩,
      by norm_num [TimelineTrack.siblingsOf, List.filter_cons]⟩

end Anim
